import Mathlib

/-!
Verification of the protocol-framework byte codec kernel.

This file embeds the core data model and operations of the repository
(`protocol-kernel`: hex utilities, `Rawfield`, the dual-cursor `Reader`,
the `Writer` with placeholder backfill, the single-field decoders and the
declarative encode driver) as executable Lean definitions, and proves the
specification claims about them.

Bytes are modelled as `Nat` values (with `< 256` hypotheses where byte
range matters), buffers as `List Nat`, and fallible Rust functions as
`Except PError`.  Operations taking `&mut self` in Rust are embedded as
functions returning `Except PError α × State`, so that the state after a
failed call is explicit (this is what makes the atomicity claims real
statements).
-/

set_option autoImplicit false

deriving instance DecidableEq for Except

namespace Proto

/-- Protocol errors, following `protocol-base` (`ProtocolError` and the
`HexError` variant actually used by the kernel paths embedded here).
`CrcMismatch` carries the calculated and on-wire hex values. -/
inductive PError where
  | InputTooShort (needed available : Nat)
  | ValidationFailed (reason : String)
  | CommonError (msg : String)
  | HexParseError (context reason : String)
  | CrcMismatch (expected actual : String)
  deriving DecidableEq

/-! ## Hex utilities (`protocol-kernel/src/utils/hex_util.rs`) -/

/-- Upper-case hex digit for a nibble (`hex::encode_upper` digit table). -/
def hexDigitU (n : Nat) : Char :=
  if n < 10 then Char.ofNat (48 + n) else Char.ofNat (55 + n)

/-- The two upper-case hex characters of one byte (`hex::encode_upper`). -/
def byteToHexChars (b : Nat) : List Char :=
  [hexDigitU (b / 16 % 16), hexDigitU (b % 16)]

/-- Character stream of `hex::encode_upper` over a byte buffer. -/
def bytesToHexChars : List Nat → List Char
  | [] => []
  | b :: bs => byteToHexChars b ++ bytesToHexChars bs

/-- `hex_util::bytes_to_hex` as a pure string (it never fails). -/
def bytesToHexStr (bs : List Nat) : String :=
  String.mk (bytesToHexChars bs)

/-- `hex_util::bytes_to_hex`: encode a byte buffer as an upper-case hex
string; always succeeds. -/
def bytes_to_hex (bs : List Nat) : Except PError String :=
  .ok (bytesToHexStr bs)

/-- Value of one hex character (`hex::decode` accepts both cases). -/
def hexCharVal (c : Char) : Option Nat :=
  if '0' ≤ c ∧ c ≤ '9' then some (c.toNat - 48)
  else if 'A' ≤ c ∧ c ≤ 'F' then some (c.toNat - 55)
  else if 'a' ≤ c ∧ c ≤ 'f' then some (c.toNat - 87)
  else none

/-- Pairwise hex decoding, as `hex::decode` does after cleaning/padding.
The error message text of the external `hex` crate is not reproduced
verbatim; only the error kind (`HexParseError`) is modelled, which is all
the kernel code and the claims depend on. -/
def decodeHexPairs : List Char → Except PError (List Nat)
  | [] => .ok []
  | [_] => .error (.HexParseError "bytes" "Odd number of digits")
  | c1 :: c2 :: rest =>
    match hexCharVal c1, hexCharVal c2 with
    | some hi, some lo =>
      match decodeHexPairs rest with
      | .ok bs => .ok ((hi * 16 + lo) :: bs)
      | .error e => .error e
    | _, _ => .error (.HexParseError "bytes" "Invalid character")

/-- Whitespace test used by `str::trim`. -/
def isWsChar (c : Char) : Bool := c.isWhitespace

/-- `str::trim` on a character list: drop whitespace from both ends. -/
def trimChars (l : List Char) : List Char :=
  ((l.dropWhile isWsChar).reverse.dropWhile isWsChar).reverse

/-- Strip one optional leading `"0x"` / `"0X"` marker
(`_clean_hex_str`'s `strip_prefix` steps). -/
def strip0x (l : List Char) : List Char :=
  match l with
  | c0 :: c1 :: rest =>
    if c0 = '0' ∧ c1 = 'x' then rest
    else if c0 = '0' ∧ c1 = 'X' then rest
    else l
  | _ => l

/-- `hex_util::_clean_and_pad_hex_str`: trim, strip the `0x` marker, and
left-pad with a single `'0'` if the length is odd. -/
def cleanAndPadHex (l : List Char) : List Char :=
  let cleaned := strip0x (trimChars l)
  if cleaned.length % 2 = 0 then cleaned else '0' :: cleaned

/-- `hex_util::hex_to_bytes` on a character list. -/
def hexToBytesL (l : List Char) : Except PError (List Nat) :=
  decodeHexPairs (cleanAndPadHex l)

/-- `hex_util::hex_to_bytes`: clean/pad then decode. -/
def hex_to_bytes (s : String) : Except PError (List Nat) :=
  hexToBytesL s.data

/-! ## `Rawfield` (`core/parts/rawfield.rs`) -/

/-- One decoded/encoded field occurrence. -/
structure Rawfield where
  bytes : List Nat
  title : String
  hex : String
  value : String
  deriving DecidableEq

/-- `Rawfield::new`: the `hex` attribute is computed from the raw bytes by
`hex::encode_upper`. -/
def Rawfield.new (rawBytes : List Nat) (title value : String) : Rawfield :=
  { bytes := rawBytes, title := title, hex := bytesToHexStr rawBytes, value := value }

/-- `Rawfield::new_with_hex`: the `hex` attribute is stored verbatim and
`bytes` is decoded from it.  The Rust code `unwrap`s the decode; the panic
on invalid hex is modelled as `none`. -/
def Rawfield.newWithHex (hex : String) (title : String) (value : String) : Option Rawfield :=
  match hex_to_bytes hex with
  | .ok bs => some { bytes := bs, title := title, hex := hex, value := value }
  | .error _ => none

/-! ## Reader (`core/reader.rs`)

The Rust `Reader` mutates through `&mut self`; each operation is embedded
as a function `Reader → Except PError α × Reader` returning the result and
the state after the call, so failed calls carry their (unchanged or
partially changed) state explicitly. -/

/-- Reader state: borrowed buffer, head cursor `pos`, exclusive tail
cursor `sop`, total length, collected fields and the last field. -/
structure Reader where
  buffer : List Nat
  pos : Nat
  sop : Nat
  total : Nat
  fields : List Rawfield
  currentField : Option Rawfield
  deriving DecidableEq

/-- `Reader::new`: `pos = 0`, `sop = buffer.len()`. -/
def Reader.new (buffer : List Nat) : Reader :=
  { buffer := buffer, pos := 0, sop := buffer.length, total := buffer.length
    fields := [], currentField := none }

/-- `Reader::remaining_len`: `sop.saturating_sub(pos)` (Nat subtraction
saturates exactly like `saturating_sub`). -/
def Reader.remaining_len (s : Reader) : Nat := s.sop - s.pos

/-- `Reader::check_remaining`. -/
def Reader.check_remaining (s : Reader) (len : Nat) : Except PError Unit :=
  if s.remaining_len < len then .error (.InputTooShort len s.remaining_len) else .ok ()

/-- `Reader::check_overlap`. -/
def Reader.check_overlap (s : Reader) : Except PError Unit :=
  if s.pos > s.sop then .error (.ValidationFailed "Reader cursors overlapped") else .ok ()

/-- The slice `buffer[a .. a+len]` (Rust panics out of bounds; under the
cursor invariant the guarded calls below never reach that case). -/
def Reader.sliceAt (s : Reader) (a len : Nat) : List Nat :=
  (s.buffer.drop a).take len

/-- `Reader::read_bytes`. -/
def Reader.read_bytes (len : Nat) (s : Reader) : Except PError (List Nat) × Reader :=
  match s.check_remaining len with
  | .error e => (.error e, s)
  | .ok _ => (.ok (s.sliceAt s.pos len), { s with pos := s.pos + len })

/-- `Reader::read_bytes_le`: like `read_bytes` then reverse the copy. -/
def Reader.read_bytes_le (len : Nat) (s : Reader) : Except PError (List Nat) × Reader :=
  match s.check_remaining len with
  | .error e => (.error e, s)
  | .ok _ => (.ok (s.sliceAt s.pos len).reverse, { s with pos := s.pos + len })

/-- `Reader::read_remaining`: copy `[pos, sop)` and collapse `pos` to
`sop`. -/
def Reader.read_remaining (s : Reader) : Except PError (List Nat) × Reader :=
  (.ok (s.sliceAt s.pos (s.sop - s.pos)), { s with pos := s.sop })

/-- `Reader::read_and_translate_head`: check, slice `[pos, pos+len)`,
translate, record the field, advance `pos`.  A translator failure
propagates before any state change. -/
def Reader.read_and_translate_head (len : Nat) (translator : List Nat → Except PError Rawfield)
    (s : Reader) : Except PError Unit × Reader :=
  match s.check_remaining len with
  | .error e => (.error e, s)
  | .ok _ =>
    match translator (s.sliceAt s.pos len) with
    | .error e => (.error e, s)
    | .ok rf =>
      (.ok (), { s with fields := s.fields ++ [rf], currentField := some rf,
                        pos := s.pos + len })

/-- `Reader::read_and_translate_tail`: check remaining and overlap, slice
`[sop-len, sop)`, translate, record, retreat `sop`. -/
def Reader.read_and_translate_tail (len : Nat) (translator : List Nat → Except PError Rawfield)
    (s : Reader) : Except PError Unit × Reader :=
  match s.check_remaining len with
  | .error e => (.error e, s)
  | .ok _ =>
    match s.check_overlap with
    | .error e => (.error e, s)
    | .ok _ =>
      match translator (s.sliceAt (s.sop - len) len) with
      | .error e => (.error e, s)
      | .ok rf =>
        (.ok (), { s with fields := s.fields ++ [rf], currentField := some rf,
                          sop := s.sop - len })

/-- `Reader::read_by_index_not_move`: pure accessor; `end_index` may be
negative (counted from `total`).  The `checked_add` overflow branch of the
Rust code cannot occur over unbounded integers and has no counterpart. -/
def Reader.read_by_index_not_move (s : Reader) (start_index : Nat) (end_index : Int) :
    Except PError (List Nat) :=
  let eiE : Except PError Nat :=
    if end_index ≥ 0 then .ok end_index.toNat
    else
      let idx : Int := (s.total : Int) + end_index
      if idx < 0 then
        .error (.ValidationFailed ("end_index " ++ toString end_index ++ " is out of bounds"))
      else .ok idx.toNat
  match eiE with
  | .error e => .error e
  | .ok ei =>
    if ei > s.total then
      .error (.ValidationFailed ("end_index " ++ toString end_index ++ " (resolved to " ++
        toString ei ++ ") is out of bounds (" ++ toString s.total ++ ")"))
    else if start_index > ei then
      .error (.ValidationFailed ("start_index " ++ toString start_index ++
        " is greater than end_index " ++ toString ei))
    else .ok (s.sliceAt start_index (ei - start_index))

/-- Big-endian hex of a `u16` CRC value. -/
def crcHexOf (n : Nat) : String := bytesToHexStr [n / 256 % 256, n % 256]

/-- Modelled from the spec: `crc_util::compare_crc` — the file
`protocol-kernel/src/utils/crc_util.rs` is declared (`pub mod crc_util`)
but absent from the sources.  Per the spec, `compare(hex_string,
calculated) -> Result` fails with `CrcMismatch{expected, actual}` carrying
the computed and on-wire values when the on-wire CRC disagrees with the
computed `u16`. -/
def compare_crc (crcHex : String) (calculated : Nat) : Except PError Unit :=
  if crcHex = crcHexOf calculated then .ok () else .error (.CrcMismatch (crcHexOf calculated) crcHex)

/-- `Reader::read_and_translate_crc`.  The external CRC primitive
`crc_util::calculate_from_bytes(crc_mode, bytes) -> u16` (absent from the
sources; an opaque leaf per the spec) is abstracted as the function
argument `crcCalc`, so every theorem below holds for every CRC algorithm. -/
def Reader.read_and_translate_crc (len : Nat) (crcCalc : List Nat → Nat)
    (crc_start_pos : Nat) (crc_end_pos : Int) (s : Reader) : Except PError Unit × Reader :=
  match s.check_remaining len with
  | .error e => (.error e, s)
  | .ok _ =>
    match s.check_overlap with
    | .error e => (.error e, s)
    | .ok _ =>
      let crcBytes := s.sliceAt (s.sop - len) len
      let crcHex := bytesToHexStr crcBytes
      match s.read_by_index_not_move crc_start_pos crc_end_pos with
      | .error e => (.error e, s)
      | .ok expectedCrcBytes =>
        match compare_crc crcHex (crcCalc expectedCrcBytes) with
        | .error e => (.error e, s)
        | .ok _ =>
          let rf := Rawfield.new crcBytes "crc" crcHex
          (.ok (), { s with fields := s.fields ++ [rf], currentField := some rf,
                            sop := s.sop - len })

/-! ## Single-field decoders (`core/type_converter.rs`) -/

/-- `{:?}` debug formatting of a `Vec<u8>`, e.g. `[170, 86]`. -/
def listDebugFmt (l : List Nat) : String :=
  "[" ++ String.intercalate ", " (l.map toString) ++ "]"

/-- `FieldCompareDecoder`: compare mode. -/
structure FieldCompareDecoder where
  title : String
  swap : Bool
  compare_target : List Nat
  deriving DecidableEq

/-- The (possibly swapped) input bytes a decoder actually compares or
decodes: reversed when `swap` is set and the slice has more than one
byte. -/
def swappedInput (swap : Bool) (bytes : List Nat) : List Nat :=
  if swap ∧ bytes.length > 1 then bytes.reverse else bytes

/-- `FieldCompareDecoder::translate`: requires byte-exact equality with
`compare_target` after the optional swap; on success the field value is
the hex of the (possibly swapped) bytes. -/
def FieldCompareDecoder.translate (d : FieldCompareDecoder) (bytes : List Nat) :
    Except PError Rawfield :=
  let inputBytes := swappedInput d.swap bytes
  if inputBytes ≠ d.compare_target then
    .error (.CommonError ("compare failed , target bytes : " ++ listDebugFmt inputBytes ++
      " , expected bytes : " ++ listDebugFmt d.compare_target))
  else
    .ok (Rawfield.new bytes d.title (bytesToHexStr inputBytes))

/-- The closed set of numeric types `T` implementing `TryFromBytes`
(besides `String`), per the spec's design note: a tagged union of the
supported widths. -/
inductive NumTy where
  | u8 | i8 | u16 | i16 | u32 | i32 | u64 | i64
  deriving DecidableEq

/-- Fixed byte width of each `TryFromBytes` numeric type. -/
def NumTy.width : NumTy → Nat
  | .u8 | .i8 => 1
  | .u16 | .i16 => 2
  | .u32 | .i32 => 4
  | .u64 | .i64 => 8

def NumTy.signed : NumTy → Bool
  | .i8 | .i16 | .i32 | .i64 => true
  | _ => false

/-- Wrong-length messages of the `TryFromBytes` impls.  The 4- and 8-byte
impls of the source carry a copy-pasted `"for u16. Expected 2"` text;
reproduced verbatim. -/
def NumTy.lenMsg : NumTy → Nat → String
  | .u8, n => "Invalid byte length for u8. Expected 1, got " ++ toString n
  | .i8, n => "Invalid byte length for i8. Expected 1, got " ++ toString n
  | .u16, n => "Invalid byte length for u16. Expected 2, got " ++ toString n
  | .i16, n => "Invalid byte length for i16. Expected 2, got " ++ toString n
  | _, n => "Invalid byte length for u16. Expected 2, got " ++ toString n

/-- Big-endian value of a byte list. -/
def beNat (bs : List Nat) : Nat := bs.foldl (fun a b => a * 256 + b) 0

/-- `TryFromBytes::try_from_bytes` for the numeric types: strict width
check, then big-endian parse, or little-endian when `swap` is set (for
the single-byte types the flag is ignored in the source; reversing a
one-byte list is the identity, so the embedding coincides).  Signed types
reinterpret the bit pattern in two's complement. -/
def NumTy.try_from_bytes (t : NumTy) (bytes : List Nat) (swap : Bool) : Except PError Int :=
  if bytes.length ≠ t.width then .error (.ValidationFailed (t.lenMsg bytes.length))
  else
    let ordered := if swap then bytes.reverse else bytes
    let u := beNat ordered
    if t.signed then
      .ok (if u < 2 ^ (8 * t.width - 1) then (u : Int) else (u : Int) - 2 ^ (8 * t.width))
    else .ok (u : Int)

/-- `FieldEnumDecoder<T>` for a numeric `T`: the keys are carried as their
integer values. -/
structure FieldEnumDecoder where
  title : String
  swap : Bool
  enum_values : List (Int × String)
  deriving DecidableEq

/-- `FieldEnumDecoder::translate`: convert the bytes to `T`, look it up by
equality in `enum_values`; fall back to `T`'s string representation when
absent (`Int`'s decimal `toString` matches the `Display` output of the
Rust integer types). -/
def FieldEnumDecoder.translate (t : NumTy) (d : FieldEnumDecoder) (bytes : List Nat) :
    Except PError Rawfield :=
  match t.try_from_bytes bytes d.swap with
  | .error e => .error e
  | .ok keyValue =>
    let valueStr :=
      (((d.enum_values.find? (fun q => q.1 == keyValue)).map Prod.snd)).getD (toString keyValue)
    .ok (Rawfield.new bytes d.title valueStr)

/-! ## Writer (`core/writer.rs`)

The `HashMap<String, PlaceHolder>` is embedded as an association list with
map semantics: lookup finds the binding of a tag, insert replaces any
existing binding, remove deletes it. -/

/-- `PlaceHolder` (`core/parts/placeholder.rs`). -/
structure PlaceHolder where
  tag : String
  pos : Nat
  start_index : Nat
  end_index : Nat
  deriving DecidableEq

/-- `PlaceHolder::capacity`. -/
def PlaceHolder.capacity (p : PlaceHolder) : Nat := p.end_index - p.start_index

def phLookup (tag : String) (l : List (String × PlaceHolder)) : Option PlaceHolder :=
  (l.find? (fun q => q.1 == tag)).map Prod.snd

def phRemove (tag : String) (l : List (String × PlaceHolder)) : List (String × PlaceHolder) :=
  l.filter (fun q => q.1 != tag)

/-- Writer state. -/
structure Writer where
  buffer : List Nat
  fields : List Rawfield
  placeholders : List (String × PlaceHolder)
  deriving DecidableEq

/-- `Writer::new`. -/
def Writer.new : Writer := { buffer := [], fields := [], placeholders := [] }

/-- `Writer::into_placeholder_by_tag`: remove and return the placeholder;
the Rust error text is a literal (the `{tag}` inside `"..".into()` is not
interpolated), reproduced verbatim. -/
def Writer.into_placeholder_by_tag (tag : String) (s : Writer) :
    Except PError PlaceHolder × Writer :=
  match phLookup tag s.placeholders with
  | none => (.error (.CommonError "未找到标签为 '\x7btag\x7d' 的占位符"), s)
  | some p => (.ok p, { s with placeholders := phRemove tag s.placeholders })

/-- `Writer::write`: run the translator closure, append its bytes, record
the field. -/
def Writer.write (translator : Unit → Except PError Rawfield) (s : Writer) :
    Except PError Unit × Writer :=
  match translator () with
  | .error e => (.error e, s)
  | .ok field =>
    (.ok (), { s with buffer := s.buffer ++ field.bytes, fields := s.fields ++ [field] })

/-- `Writer::write_bytes`. -/
def Writer.write_bytes (title : String) (data : List Nat) (value : String) (s : Writer) :
    Except PError Unit × Writer :=
  (.ok (), { s with buffer := s.buffer ++ data,
                    fields := s.fields ++ [Rawfield.new data title value] })

/-- `Writer::write_placeholder`: reserve `byte_len` zero bytes and record
the tag, the current field-list length and the byte range. -/
def Writer.write_placeholder (tag : String) (byte_len : Nat) (s : Writer) :
    Except PError Unit × Writer :=
  let start_pos := s.buffer.length
  if byte_len = 0 then
    (.error (.ValidationFailed "Placeholder byte_len must be greater than 0"), s)
  else
    let p : PlaceHolder :=
      { tag := tag, pos := s.fields.length, start_index := start_pos,
        end_index := start_pos + byte_len }
    (.ok (), { s with buffer := s.buffer ++ List.replicate byte_len 0,
                      placeholders := (tag, p) :: phRemove tag s.placeholders })

/-- `Vec::insert` at `n` (for `n ≤ l.length`, which holds at every call
site; Rust panics beyond). -/
def insertAt (n : Nat) (a : Rawfield) (l : List Rawfield) : List Rawfield :=
  l.take n ++ a :: l.drop n

/-- The backfill length-mismatch message of `Writer::rewrite_placeholder`. -/
def lenMismatchMsg (tag : String) (expected got : Nat) : String :=
  "Data length mismatch for placeholder '" ++ tag ++ "'. Expected " ++ toString expected ++
    " bytes, but got " ++ toString got

/-- `Writer::rewrite_placeholder`: consume the placeholder (note: the
removal happens before the length check), fail on length mismatch,
otherwise overwrite the reserved byte range in place and insert the new
field at the placeholder's recorded list position. -/
def Writer.rewrite_placeholder (placeholder_tag title : String) (bytes : List Nat) (hex : String)
    (s : Writer) : Except PError Unit × Writer :=
  match s.into_placeholder_by_tag placeholder_tag with
  | (.error e, s1) => (.error e, s1)
  | (.ok p, s1) =>
    if bytes.length ≠ p.capacity then
      (.error (.ValidationFailed (lenMismatchMsg placeholder_tag p.capacity bytes.length)), s1)
    else
      let newBuffer := s1.buffer.take p.start_index ++ bytes ++ s1.buffer.drop p.end_index
      let field := Rawfield.new bytes title hex
      (.ok (), { s1 with buffer := newBuffer, fields := insertAt p.pos field s1.fields })

/-! ## Declarative encode definitions (`core/parts/traits.rs`)

An `AutoEncodingParam` implementor is a record of its trait methods.  The
only use `to_bytes` makes of `field_type()` is calling `.encode` on it, so
the field type is carried as its encode function `ftEncode` (standing for
`self.field_type().encode`); every theorem below therefore holds for every
field type, including the floating-point-backed numeric ones. -/

structure AutoEncodingParam where
  code : String
  title : String
  byte_length : Nat
  ftEncode : String → Except PError (List Nat)
  default_value : String
  default_hex : String
  swap : Bool
  required : Bool

/-- Step 1 of `AutoEncodingParam::to_bytes`: determine the input bytes —
the explicit input encoded by the field type, or `default_hex` decoded
directly, or `default_value` encoded, or a required-parameter error, or
no bytes at all. -/
def AutoEncodingParam.to_bytes_resolve (p : AutoEncodingParam) (input : String) :
    Except PError (List Nat) :=
  if input = "" then
    if p.default_hex ≠ "" then hex_to_bytes p.default_hex
    else if p.default_value ≠ "" then p.ftEncode p.default_value
    else if p.required then
      .error (.CommonError ("Field '" ++ p.code ++ "' is required but no value provided"))
    else .ok []
  else p.ftEncode input

/-- Step 2 of `AutoEncodingParam::to_bytes`: adjust to the declared byte
length — keep the low-order `expected` bytes on overflow, zero-pad the
high-order side when short, and do nothing when `expected` is 0
(variable length) or the length already matches. -/
def adjust_len (expected : Nat) (bytes0 : List Nat) : List Nat :=
  if expected > 0 ∧ bytes0.length ≠ expected then
    if bytes0.length > expected then bytes0.drop (bytes0.length - expected)
    else List.replicate (expected - bytes0.length) 0 ++ bytes0
  else bytes0

/-- `AutoEncodingParam::to_bytes`: resolve, adjust length, then apply the
byte swap (`hex_util::swap_bytes`, which never fails). -/
def AutoEncodingParam.to_bytes (p : AutoEncodingParam) (input : String) :
    Except PError (List Nat) :=
  match p.to_bytes_resolve input with
  | .error e => .error e
  | .ok bytes0 =>
    let bytes1 := adjust_len p.byte_length bytes0
    if p.swap then .ok bytes1.reverse else .ok bytes1

/-- Conditional byte reversal (`hex_util::swap_bytes` applied when the
swap flag is set), used to state the claims about `to_bytes`. -/
def condReverse (swap : Bool) (l : List Nat) : List Nat :=
  if swap then l.reverse else l

/-! ## Reader reachability -/

/-- The documented Reader cursor invariant `0 ≤ pos ≤ sop ≤ buffer.length`
(the lower bound is inherent to `Nat`). -/
def Reader.Inv (s : Reader) : Prop :=
  s.pos ≤ s.sop ∧ s.sop ≤ s.buffer.length

/-- One successful Reader call, over any arguments and any translator or
CRC function. -/
inductive RStep : Reader → Reader → Prop where
  | read_bytes (len : Nat) (r : List Nat) (s s' : Reader) :
      Reader.read_bytes len s = (.ok r, s') → RStep s s'
  | read_bytes_le (len : Nat) (r : List Nat) (s s' : Reader) :
      Reader.read_bytes_le len s = (.ok r, s') → RStep s s'
  | read_remaining (r : List Nat) (s s' : Reader) :
      Reader.read_remaining s = (.ok r, s') → RStep s s'
  | head (len : Nat) (t : List Nat → Except PError Rawfield) (u : Unit) (s s' : Reader) :
      Reader.read_and_translate_head len t s = (.ok u, s') → RStep s s'
  | tail (len : Nat) (t : List Nat → Except PError Rawfield) (u : Unit) (s s' : Reader) :
      Reader.read_and_translate_tail len t s = (.ok u, s') → RStep s s'
  | crc (len : Nat) (f : List Nat → Nat) (a : Nat) (b : Int) (u : Unit) (s s' : Reader) :
      Reader.read_and_translate_crc len f a b s = (.ok u, s') → RStep s s'

/-- Reader states reachable from `Reader::new` on a buffer through
sequences of successful calls. -/
inductive Reach (buf : List Nat) : Reader → Prop where
  | init : Reach buf (Reader.new buf)
  | step {s s' : Reader} : Reach buf s → RStep s s' → Reach buf s'

/-! ## Sanity checks of the embedding on concrete inputs -/

example : bytesToHexStr [0xAB, 0x01] = "AB01" := by decide
example : hex_to_bytes "ab" = .ok [171] := by decide
example : hex_to_bytes "0xAB01" = .ok [171, 1] := by decide
example : hex_to_bytes "F0A" = .ok [15, 10] := by decide
example :
    (Reader.read_bytes 2 (Reader.new [1, 2, 0xAB, 0xCD])).1 = .ok [1, 2] := by decide
example :
    ((Reader.new [1, 2, 0xAB, 0xCD]).read_by_index_not_move 0 (-2)) = .ok [1, 2] := by decide
example :
    FieldEnumDecoder.translate .u8 ⟨"st", false, [(1, "Open"), (2, "Closed")]⟩ [3] =
      .ok (Rawfield.new [3] "st" "3") := by decide
example :
    FieldEnumDecoder.translate .u8 ⟨"st", false, [(1, "Open"), (2, "Closed")]⟩ [2] =
      .ok (Rawfield.new [2] "st" "Closed") := by decide
example : NumTy.try_from_bytes .i16 [0xFF, 0xFE] false = .ok (-2) := by decide
example : NumTy.try_from_bytes .u16 [0x01, 0x02] true = .ok 513 := by decide
example :
    (do
      let s0 := Writer.new
      let s1 := (s0.write_bytes "cmd" [5] "5").2
      let s2 := (s1.write_placeholder "len" 2).2
      let s3 := (s2.write_bytes "payload" [9, 9, 9] "999").2
      let s4 := (s3.rewrite_placeholder "len" "length" [0, 3] "0003").2
      pure s4.buffer : Option (List Nat)) = some [5, 0, 3, 9, 9, 9] := by decide

/-! ## Reader operation inversion lemmas -/

theorem check_remaining_lt {s : Reader} {len : Nat} (h : s.remaining_len < len) :
    s.check_remaining len = .error (.InputTooShort len s.remaining_len) := by
  simp [Reader.check_remaining, h]

theorem check_remaining_ge {s : Reader} {len : Nat} (h : ¬ s.remaining_len < len) :
    s.check_remaining len = .ok () := by
  simp [Reader.check_remaining, h]

theorem check_overlap_le {s : Reader} (h : ¬ s.pos > s.sop) :
    s.check_overlap = .ok () := by
  simp [Reader.check_overlap, h]

theorem check_overlap_gt {s : Reader} (h : s.pos > s.sop) :
    s.check_overlap = .error (.ValidationFailed "Reader cursors overlapped") := by
  simp [Reader.check_overlap, h]

theorem read_bytes_ok {len : Nat} {r : List Nat} {s s' : Reader}
    (h : Reader.read_bytes len s = (.ok r, s')) :
    len ≤ s.remaining_len ∧ s' = { s with pos := s.pos + len } := by
  unfold Reader.read_bytes at h
  by_cases hc : s.remaining_len < len
  · rw [check_remaining_lt hc] at h
    simp at h
  · rw [check_remaining_ge hc] at h
    simp at h
    exact ⟨Nat.le_of_not_lt hc, h.2.symm⟩

theorem read_bytes_le_ok {len : Nat} {r : List Nat} {s s' : Reader}
    (h : Reader.read_bytes_le len s = (.ok r, s')) :
    len ≤ s.remaining_len ∧ s' = { s with pos := s.pos + len } := by
  unfold Reader.read_bytes_le at h
  by_cases hc : s.remaining_len < len
  · rw [check_remaining_lt hc] at h
    simp at h
  · rw [check_remaining_ge hc] at h
    simp at h
    exact ⟨Nat.le_of_not_lt hc, h.2.symm⟩

theorem read_remaining_ok {r : List Nat} {s s' : Reader}
    (h : Reader.read_remaining s = (.ok r, s')) :
    s' = { s with pos := s.sop } := by
  unfold Reader.read_remaining at h
  simp at h
  exact h.2.symm

theorem read_and_translate_head_ok {len : Nat} {t : List Nat → Except PError Rawfield}
    {u : Unit} {s s' : Reader}
    (h : Reader.read_and_translate_head len t s = (.ok u, s')) :
    len ≤ s.remaining_len ∧ ∃ rf,
      s' = { s with fields := s.fields ++ [rf], currentField := some rf,
                    pos := s.pos + len } := by
  unfold Reader.read_and_translate_head at h
  by_cases hc : s.remaining_len < len
  · rw [check_remaining_lt hc] at h
    simp at h
  · rw [check_remaining_ge hc] at h
    cases ht : t (s.sliceAt s.pos len) with
    | error e => rw [ht] at h; simp at h
    | ok rf =>
      rw [ht] at h
      simp at h
      exact ⟨Nat.le_of_not_lt hc, rf, h.symm⟩

theorem read_and_translate_tail_ok {len : Nat} {t : List Nat → Except PError Rawfield}
    {u : Unit} {s s' : Reader}
    (h : Reader.read_and_translate_tail len t s = (.ok u, s')) :
    len ≤ s.remaining_len ∧ s.pos ≤ s.sop ∧ ∃ rf,
      s' = { s with fields := s.fields ++ [rf], currentField := some rf,
                    sop := s.sop - len } := by
  unfold Reader.read_and_translate_tail at h
  by_cases hc : s.remaining_len < len
  · rw [check_remaining_lt hc] at h
    simp at h
  · rw [check_remaining_ge hc] at h
    by_cases ho : s.pos > s.sop
    · rw [check_overlap_gt ho] at h
      simp at h
    · rw [check_overlap_le ho] at h
      cases ht : t (s.sliceAt (s.sop - len) len) with
      | error e => rw [ht] at h; simp at h
      | ok rf =>
        rw [ht] at h
        simp at h
        exact ⟨Nat.le_of_not_lt hc, Nat.le_of_not_lt ho, rf, h.symm⟩

theorem read_and_translate_crc_ok {len : Nat} {f : List Nat → Nat} {a : Nat} {b : Int}
    {u : Unit} {s s' : Reader}
    (h : Reader.read_and_translate_crc len f a b s = (.ok u, s')) :
    len ≤ s.remaining_len ∧ s.pos ≤ s.sop ∧ ∃ rf,
      s' = { s with fields := s.fields ++ [rf], currentField := some rf,
                    sop := s.sop - len } := by
  unfold Reader.read_and_translate_crc at h
  by_cases hc : s.remaining_len < len
  · rw [check_remaining_lt hc] at h
    simp at h
  · rw [check_remaining_ge hc] at h
    by_cases ho : s.pos > s.sop
    · rw [check_overlap_gt ho] at h
      simp at h
    · rw [check_overlap_le ho] at h
      cases hr : s.read_by_index_not_move a b with
      | error e => rw [hr] at h; simp at h
      | ok rng =>
        rw [hr] at h
        simp only [Reader.read_and_translate_crc] at h
        cases hcmp : compare_crc (bytesToHexStr (s.sliceAt (s.sop - len) len)) (f rng) with
        | error e => rw [hcmp] at h; simp at h
        | ok w =>
          rw [hcmp] at h
          simp at h
          exact ⟨Nat.le_of_not_lt hc, Nat.le_of_not_lt ho,
            Rawfield.new (s.sliceAt (s.sop - len) len) "crc"
              (bytesToHexStr (s.sliceAt (s.sop - len) len)), h.symm⟩

theorem read_bytes_short {s : Reader} {len : Nat} (h : s.remaining_len < len) :
    Reader.read_bytes len s = (.error (.InputTooShort len s.remaining_len), s) := by
  unfold Reader.read_bytes
  rw [check_remaining_lt h]

theorem read_bytes_le_short {s : Reader} {len : Nat} (h : s.remaining_len < len) :
    Reader.read_bytes_le len s = (.error (.InputTooShort len s.remaining_len), s) := by
  unfold Reader.read_bytes_le
  rw [check_remaining_lt h]

theorem read_and_translate_head_short {s : Reader} {len : Nat}
    (t : List Nat → Except PError Rawfield) (h : s.remaining_len < len) :
    Reader.read_and_translate_head len t s =
      (.error (.InputTooShort len s.remaining_len), s) := by
  unfold Reader.read_and_translate_head
  rw [check_remaining_lt h]

theorem read_and_translate_tail_short {s : Reader} {len : Nat}
    (t : List Nat → Except PError Rawfield) (h : s.remaining_len < len) :
    Reader.read_and_translate_tail len t s =
      (.error (.InputTooShort len s.remaining_len), s) := by
  unfold Reader.read_and_translate_tail
  rw [check_remaining_lt h]

theorem read_and_translate_crc_short {s : Reader} {len : Nat}
    (f : List Nat → Nat) (a : Nat) (b : Int) (h : s.remaining_len < len) :
    Reader.read_and_translate_crc len f a b s =
      (.error (.InputTooShort len s.remaining_len), s) := by
  unfold Reader.read_and_translate_crc
  rw [check_remaining_lt h]

theorem read_and_translate_tail_overlap {s : Reader} {len : Nat}
    (t : List Nat → Except PError Rawfield) (ho : s.pos > s.sop)
    (hc : ¬ s.remaining_len < len) :
    Reader.read_and_translate_tail len t s =
      (.error (.ValidationFailed "Reader cursors overlapped"), s) := by
  unfold Reader.read_and_translate_tail
  rw [check_remaining_ge hc, check_overlap_gt ho]

theorem read_and_translate_crc_overlap {s : Reader} {len : Nat}
    (f : List Nat → Nat) (a : Nat) (b : Int) (ho : s.pos > s.sop)
    (hc : ¬ s.remaining_len < len) :
    Reader.read_and_translate_crc len f a b s =
      (.error (.ValidationFailed "Reader cursors overlapped"), s) := by
  unfold Reader.read_and_translate_crc
  rw [check_remaining_ge hc, check_overlap_gt ho]

/-- Every reachable Reader state satisfies the cursor invariant. -/
theorem reach_inv (buf : List Nat) (s : Reader) (h : Reach buf s) : s.Inv := by
  induction h with
  | init => exact ⟨Nat.zero_le _, Nat.le_refl _⟩
  | step hr hstep ih =>
    rcases ih with ⟨i1, i2⟩
    cases hstep with
    | read_bytes len r s s' heq =>
      obtain ⟨hle, hs⟩ := read_bytes_ok heq
      subst hs
      unfold Reader.remaining_len at hle
      exact ⟨by simp; omega, i2⟩
    | read_bytes_le len r s s' heq =>
      obtain ⟨hle, hs⟩ := read_bytes_le_ok heq
      subst hs
      unfold Reader.remaining_len at hle
      exact ⟨by simp; omega, i2⟩
    | read_remaining r s s' heq =>
      obtain hs := read_remaining_ok heq
      subst hs
      exact ⟨Nat.le_refl _, i2⟩
    | head len t u s s' heq =>
      obtain ⟨hle, rf, hs⟩ := read_and_translate_head_ok heq
      subst hs
      unfold Reader.remaining_len at hle
      exact ⟨by simp; omega, i2⟩
    | tail len t u s s' heq =>
      obtain ⟨hle, hps, rf, hs⟩ := read_and_translate_tail_ok heq
      subst hs
      unfold Reader.remaining_len at hle
      exact ⟨by simp; omega, by simp; omega⟩
    | crc len f a b u s s' heq =>
      obtain ⟨hle, hps, rf, hs⟩ := read_and_translate_crc_ok heq
      subst hs
      unfold Reader.remaining_len at hle
      exact ⟨by simp; omega, by simp; omega⟩

/-- C1: Reader cursor invariant.  (i) After every sequence of successful
calls among `read_bytes`, `read_bytes_le`, `read_remaining`,
`read_and_translate_head`, `read_and_translate_tail` and
`read_and_translate_crc` starting from `Reader::new`, the invariant
`0 ≤ pos ≤ sop ≤ buffer.length` holds (the lower bound is inherent to
`Nat`).  (ii) A call asking for more bytes than the live region `[pos,
sop)` holds fails with `InputTooShort` and changes neither cursor.
(iii) A call on overlapped cursors (`pos > sop`) that passes the length
check fails with the cursor-overlap `ValidationFailed` error and changes
neither cursor. -/
theorem c1_reader_cursor_invariant :
    (∀ (buf : List Nat) (s : Reader), Reach buf s → s.pos ≤ s.sop ∧ s.sop ≤ s.buffer.length) ∧
    (∀ (s : Reader) (len : Nat), s.remaining_len < len →
      Reader.read_bytes len s = (.error (.InputTooShort len s.remaining_len), s) ∧
      Reader.read_bytes_le len s = (.error (.InputTooShort len s.remaining_len), s) ∧
      (∀ t, Reader.read_and_translate_head len t s =
        (.error (.InputTooShort len s.remaining_len), s)) ∧
      (∀ t, Reader.read_and_translate_tail len t s =
        (.error (.InputTooShort len s.remaining_len), s)) ∧
      (∀ f a b, Reader.read_and_translate_crc len f a b s =
        (.error (.InputTooShort len s.remaining_len), s))) ∧
    (∀ (s : Reader) (len : Nat), s.pos > s.sop → ¬ s.remaining_len < len →
      (∀ t, Reader.read_and_translate_tail len t s =
        (.error (.ValidationFailed "Reader cursors overlapped"), s)) ∧
      (∀ f a b, Reader.read_and_translate_crc len f a b s =
        (.error (.ValidationFailed "Reader cursors overlapped"), s))) := by
  refine ⟨reach_inv, ?_, ?_⟩
  · intro s len h
    exact ⟨read_bytes_short h, read_bytes_le_short h,
      fun t => read_and_translate_head_short t h,
      fun t => read_and_translate_tail_short t h,
      fun f a b => read_and_translate_crc_short f a b h⟩
  · intro s len ho hc
    exact ⟨fun t => read_and_translate_tail_overlap t ho hc,
      fun f a b => read_and_translate_crc_overlap f a b ho hc⟩

/-- Witness for C1 at concrete inputs: the initial state on a 3-byte
buffer satisfies the invariant; reading 5 bytes from it fails with
`InputTooShort 5 3` leaving the state unchanged; a zero-length tail read
on an (artificially) overlapped state fails with the cursor-overlap
error. -/
theorem c1_reader_cursor_invariant_witness :
    ((Reader.new [1, 2, 3]).pos ≤ (Reader.new [1, 2, 3]).sop ∧
      (Reader.new [1, 2, 3]).sop ≤ (Reader.new [1, 2, 3]).buffer.length) ∧
    Reader.read_bytes 5 (Reader.new [1, 2, 3]) =
      (.error (.InputTooShort 5 3), Reader.new [1, 2, 3]) ∧
    Reader.read_and_translate_tail 0 (fun bs => .ok (Rawfield.new bs "t" "v"))
        { buffer := [1], pos := 1, sop := 0, total := 1, fields := [], currentField := none } =
      (.error (.ValidationFailed "Reader cursors overlapped"),
        { buffer := [1], pos := 1, sop := 0, total := 1, fields := [], currentField := none }) :=
  ⟨c1_reader_cursor_invariant.1 [1, 2, 3] (Reader.new [1, 2, 3]) Reach.init,
    (c1_reader_cursor_invariant.2.1 (Reader.new [1, 2, 3]) 5 (by decide)).1,
    (c1_reader_cursor_invariant.2.2
      { buffer := [1], pos := 1, sop := 0, total := 1, fields := [], currentField := none }
      0 (by decide) (by decide)).1 (fun bs => .ok (Rawfield.new bs "t" "v"))⟩

theorem read_and_translate_head_terr {s : Reader} {len : Nat}
    {t : List Nat → Except PError Rawfield} {e : PError}
    (hc : ¬ s.remaining_len < len) (ht : t (s.sliceAt s.pos len) = .error e) :
    Reader.read_and_translate_head len t s = (.error e, s) := by
  unfold Reader.read_and_translate_head
  rw [check_remaining_ge hc, ht]

theorem read_and_translate_tail_terr {s : Reader} {len : Nat}
    {t : List Nat → Except PError Rawfield} {e : PError}
    (hc : ¬ s.remaining_len < len) (ho : ¬ s.pos > s.sop)
    (ht : t (s.sliceAt (s.sop - len) len) = .error e) :
    Reader.read_and_translate_tail len t s = (.error e, s) := by
  unfold Reader.read_and_translate_tail
  rw [check_remaining_ge hc, check_overlap_le ho, ht]

/-- C2: Reader per-field atomicity.  When the translator closure of
`read_and_translate_head` or `read_and_translate_tail` fails, the call
propagates exactly that error and the Reader is returned unchanged: `pos`
and `sop` keep their values and no field is appended.  In particular a
`FieldCompareDecoder` whose (possibly swapped) input differs from
`compare_target` fails, and a head read through it does not advance the
cursor. -/
theorem c2_reader_field_atomicity :
    (∀ (s : Reader) (len : Nat) (t : List Nat → Except PError Rawfield) (e : PError),
      ¬ s.remaining_len < len → t (s.sliceAt s.pos len) = .error e →
      Reader.read_and_translate_head len t s = (.error e, s)) ∧
    (∀ (s : Reader) (len : Nat) (t : List Nat → Except PError Rawfield) (e : PError),
      ¬ s.remaining_len < len → ¬ s.pos > s.sop →
      t (s.sliceAt (s.sop - len) len) = .error e →
      Reader.read_and_translate_tail len t s = (.error e, s)) ∧
    (∀ (d : FieldCompareDecoder) (bytes : List Nat),
      swappedInput d.swap bytes ≠ d.compare_target →
      d.translate bytes = .error (.CommonError
        ("compare failed , target bytes : " ++ listDebugFmt (swappedInput d.swap bytes) ++
          " , expected bytes : " ++ listDebugFmt d.compare_target))) ∧
    (∀ (s : Reader) (len : Nat) (d : FieldCompareDecoder),
      ¬ s.remaining_len < len →
      swappedInput d.swap (s.sliceAt s.pos len) ≠ d.compare_target →
      ∃ msg, Reader.read_and_translate_head len d.translate s =
        (.error (.CommonError msg), s)) := by
  have hcmp : ∀ (d : FieldCompareDecoder) (bytes : List Nat),
      swappedInput d.swap bytes ≠ d.compare_target →
      d.translate bytes = .error (.CommonError
        ("compare failed , target bytes : " ++ listDebugFmt (swappedInput d.swap bytes) ++
          " , expected bytes : " ++ listDebugFmt d.compare_target)) := by
    intro d bytes hne
    unfold FieldCompareDecoder.translate
    rw [if_pos hne]
  refine ⟨fun s len t e hc ht => read_and_translate_head_terr hc ht,
    fun s len t e hc ho ht => read_and_translate_tail_terr hc ho ht,
    hcmp, ?_⟩
  intro s len d hc hne
  exact ⟨_, read_and_translate_head_terr hc (hcmp d (s.sliceAt s.pos len) hne)⟩

/-- Witness for C2: the compare-failure scenario of the spec — target
`[0xAA, 0x55]`, wire bytes `[0xAA, 0x56]`: translation fails with the
compare error and the Reader cursor does not advance. -/
theorem c2_reader_field_atomicity_witness :
    Reader.read_and_translate_head 2
        (FieldCompareDecoder.translate ⟨"head", false, [0xAA, 0x55]⟩)
        (Reader.new [0xAA, 0x56]) =
      (.error (.CommonError
        "compare failed , target bytes : [170, 86] , expected bytes : [170, 85]"),
        Reader.new [0xAA, 0x56]) :=
  c2_reader_field_atomicity.1 (Reader.new [0xAA, 0x56]) 2
    (FieldCompareDecoder.translate ⟨"head", false, [0xAA, 0x55]⟩)
    (.CommonError "compare failed , target bytes : [170, 86] , expected bytes : [170, 85]")
    (by decide) (by decide)

/-- C3: CRC trailer check.  With at least `len` live bytes and a byte
range that resolves, `read_and_translate_crc` compares the `len`-byte
trailer `[sop-len, sop)` with the CRC computed over the range: on
disagreement it fails with `CrcMismatch` carrying the calculated and
on-wire hex values and leaves the state (in particular `sop` and the
field list) unchanged; on agreement it records a field titled `"crc"`
whose value is the upper-case hex of the trailer and retreats `sop` by
`len`.  `crcCalc` abstracts the external CRC primitive, so this holds for
every CRC algorithm and mode. -/
theorem c3_crc_trailer_check :
    ∀ (s : Reader) (len : Nat) (crcCalc : List Nat → Nat) (a : Nat) (b : Int) (rng : List Nat),
      ¬ s.remaining_len < len → ¬ s.pos > s.sop →
      s.read_by_index_not_move a b = .ok rng →
      (bytesToHexStr (s.sliceAt (s.sop - len) len) ≠ crcHexOf (crcCalc rng) →
        Reader.read_and_translate_crc len crcCalc a b s =
          (.error (.CrcMismatch (crcHexOf (crcCalc rng))
            (bytesToHexStr (s.sliceAt (s.sop - len) len))), s)) ∧
      (bytesToHexStr (s.sliceAt (s.sop - len) len) = crcHexOf (crcCalc rng) →
        Reader.read_and_translate_crc len crcCalc a b s =
          (.ok (), { s with
            fields := s.fields ++ [Rawfield.new (s.sliceAt (s.sop - len) len) "crc"
              (bytesToHexStr (s.sliceAt (s.sop - len) len))],
            currentField := some (Rawfield.new (s.sliceAt (s.sop - len) len) "crc"
              (bytesToHexStr (s.sliceAt (s.sop - len) len))),
            sop := s.sop - len })) := by
  intro s len crcCalc a b rng hc ho hr
  constructor
  · intro hne
    simp only [Reader.read_and_translate_crc]
    rw [check_remaining_ge hc, check_overlap_le ho, hr]
    simp only [compare_crc]
    rw [if_neg hne]
  · intro heq
    simp only [Reader.read_and_translate_crc]
    rw [check_remaining_ge hc, check_overlap_le ho, hr]
    simp only [compare_crc]
    rw [if_pos heq]

/-- Witness for C3 on the buffer `[1, 2, 0xAB, 0xCD]` with the CRC range
`[0, -2)`: a CRC function returning `0xABCD` matches the trailer and
commits the `"crc"` field while retreating `sop` to 2; one returning `0`
mismatches and fails with `CrcMismatch "0000" "ABCD"`, leaving the Reader
unchanged. -/
theorem c3_crc_trailer_check_witness :
    Reader.read_and_translate_crc 2 (fun _ => 0xABCD) 0 (-2) (Reader.new [1, 2, 0xAB, 0xCD]) =
      (.ok (), { Reader.new [1, 2, 0xAB, 0xCD] with
        fields := [Rawfield.new [0xAB, 0xCD] "crc" "ABCD"],
        currentField := some (Rawfield.new [0xAB, 0xCD] "crc" "ABCD"),
        sop := 2 }) ∧
    Reader.read_and_translate_crc 2 (fun _ => 0) 0 (-2) (Reader.new [1, 2, 0xAB, 0xCD]) =
      (.error (.CrcMismatch "0000" "ABCD"), Reader.new [1, 2, 0xAB, 0xCD]) :=
  ⟨(c3_crc_trailer_check (Reader.new [1, 2, 0xAB, 0xCD]) 2 (fun _ => 0xABCD) 0 (-2) [1, 2]
      (by decide) (by decide) (by decide)).2 (by decide),
    (c3_crc_trailer_check (Reader.new [1, 2, 0xAB, 0xCD]) 2 (fun _ => 0) 0 (-2) [1, 2]
      (by decide) (by decide) (by decide)).1 (by decide)⟩

/-! ## Writer lemmas -/

theorem rewrite_placeholder_unknown {s : Writer} {tag title : String} {bytes : List Nat}
    {hex : String} (h : phLookup tag s.placeholders = none) :
    Writer.rewrite_placeholder tag title bytes hex s =
      (.error (.CommonError "未找到标签为 '\x7btag\x7d' 的占位符"), s) := by
  unfold Writer.rewrite_placeholder Writer.into_placeholder_by_tag
  rw [h]

theorem rewrite_placeholder_mismatch {s : Writer} {tag : String} {p : PlaceHolder}
    {title : String} {bytes : List Nat} {hex : String}
    (hl : phLookup tag s.placeholders = some p) (hne : bytes.length ≠ p.capacity) :
    Writer.rewrite_placeholder tag title bytes hex s =
      (.error (.ValidationFailed (lenMismatchMsg tag p.capacity bytes.length)),
        { s with placeholders := phRemove tag s.placeholders }) := by
  unfold Writer.rewrite_placeholder Writer.into_placeholder_by_tag
  rw [hl]
  simp [hne]

theorem rewrite_placeholder_success {s : Writer} {tag : String} {p : PlaceHolder}
    {title : String} {bytes : List Nat} {hex : String}
    (hl : phLookup tag s.placeholders = some p) (heq : bytes.length = p.capacity) :
    Writer.rewrite_placeholder tag title bytes hex s =
      (.ok (), { buffer := s.buffer.take p.start_index ++ bytes ++ s.buffer.drop p.end_index,
                 fields := insertAt p.pos (Rawfield.new bytes title hex) s.fields,
                 placeholders := phRemove tag s.placeholders }) := by
  unfold Writer.rewrite_placeholder Writer.into_placeholder_by_tag
  rw [hl]
  simp [heq]

theorem phLookup_phRemove (tag : String) (l : List (String × PlaceHolder)) :
    phLookup tag (phRemove tag l) = none := by
  induction l with
  | nil => rfl
  | cons q rest ih =>
    by_cases h : q.1 = tag
    · simp only [phRemove, List.filter_cons, h]
      simp only [bne_self_eq_false, Bool.false_eq_true, if_false]
      exact ih
    · simp only [phRemove, phLookup, List.filter_cons, List.find?_cons] at ih ⊢
      simp [h, ih]

/-- C4: Writer backfill length guard.  With an active placeholder `p` for
`tag`, `rewrite_placeholder` with bytes of the wrong length always fails
with the length-mismatch `ValidationFailed` error and leaves the byte
buffer unchanged byte-for-byte; with bytes of exactly the reserved length
it overwrites exactly `[start_index, end_index)` in place — the buffer
keeps its length (given the placeholder lies inside the buffer, as every
placeholder created by `write_placeholder` does) — and inserts the new
field at the placeholder's recorded field-list position instead of
appending it. -/
theorem c4_writer_backfill_guard :
    ∀ (s : Writer) (tag : String) (p : PlaceHolder) (title : String) (bytes : List Nat)
      (hex : String),
      phLookup tag s.placeholders = some p →
      (bytes.length ≠ p.capacity →
        Writer.rewrite_placeholder tag title bytes hex s =
          (.error (.ValidationFailed (lenMismatchMsg tag p.capacity bytes.length)),
            { s with placeholders := phRemove tag s.placeholders }) ∧
        (Writer.rewrite_placeholder tag title bytes hex s).2.buffer = s.buffer) ∧
      (bytes.length = p.capacity →
        Writer.rewrite_placeholder tag title bytes hex s =
          (.ok (), { buffer := s.buffer.take p.start_index ++ bytes ++ s.buffer.drop p.end_index,
                     fields := insertAt p.pos (Rawfield.new bytes title hex) s.fields,
                     placeholders := phRemove tag s.placeholders }) ∧
        (p.start_index ≤ p.end_index → p.end_index ≤ s.buffer.length →
          (Writer.rewrite_placeholder tag title bytes hex s).2.buffer.length =
            s.buffer.length)) := by
  intro s tag p title bytes hex hl
  constructor
  · intro hne
    refine ⟨rewrite_placeholder_mismatch hl hne, ?_⟩
    rw [rewrite_placeholder_mismatch hl hne]
  · intro heq
    refine ⟨rewrite_placeholder_success hl heq, ?_⟩
    intro h1 h2
    rw [rewrite_placeholder_success hl heq]
    simp [PlaceHolder.capacity] at heq ⊢
    omega

/-- Witness for C4 on a concrete Writer: command byte, 2-byte length
placeholder, 3-byte payload.  A 3-byte backfill fails and leaves the
buffer `[5, 0, 0, 9, 9, 9]` untouched; the 2-byte backfill `[0, 3]`
rewrites exactly the reserved range giving `[5, 0, 3, 9, 9, 9]` and
inserts the field at list position 1. -/
theorem c4_writer_backfill_guard_witness :
    (Writer.rewrite_placeholder "len" "length" [0, 0, 3] "000003"
        (((Writer.new.write_bytes "cmd" [5] "5").2.write_placeholder "len" 2).2.write_bytes
          "payload" [9, 9, 9] "999").2).1 =
      .error (.ValidationFailed (lenMismatchMsg "len" 2 3)) ∧
    (Writer.rewrite_placeholder "len" "length" [0, 0, 3] "000003"
        (((Writer.new.write_bytes "cmd" [5] "5").2.write_placeholder "len" 2).2.write_bytes
          "payload" [9, 9, 9] "999").2).2.buffer = [5, 0, 0, 9, 9, 9] ∧
    (Writer.rewrite_placeholder "len" "length" [0, 3] "0003"
        (((Writer.new.write_bytes "cmd" [5] "5").2.write_placeholder "len" 2).2.write_bytes
          "payload" [9, 9, 9] "999").2).2.buffer = [5, 0, 3, 9, 9, 9] ∧
    (Writer.rewrite_placeholder "len" "length" [0, 3] "0003"
        (((Writer.new.write_bytes "cmd" [5] "5").2.write_placeholder "len" 2).2.write_bytes
          "payload" [9, 9, 9] "999").2).2.fields =
      [Rawfield.new [5] "cmd" "5", Rawfield.new [0, 3] "length" "0003",
        Rawfield.new [9, 9, 9] "payload" "999"] := by
  have h := c4_writer_backfill_guard
    (((Writer.new.write_bytes "cmd" [5] "5").2.write_placeholder "len" 2).2.write_bytes
      "payload" [9, 9, 9] "999").2
    "len" { tag := "len", pos := 1, start_index := 1, end_index := 3 } "length"
  refine ⟨?_, ?_, ?_, ?_⟩
  · rw [(h [0, 0, 3] "000003" (by decide)).1 (by decide) |>.1]
    decide
  · rw [(h [0, 0, 3] "000003" (by decide)).1 (by decide) |>.1]
    decide
  · rw [(h [0, 3] "0003" (by decide)).2 (by decide) |>.1]
    decide
  · rw [(h [0, 3] "0003" (by decide)).2 (by decide) |>.1]
    decide

/-- C10 (implicit): a failed backfill consumes the placeholder.  After a
`rewrite_placeholder` call that fails on a length mismatch, the tag is no
longer in the active placeholder set, and any subsequent
`rewrite_placeholder` for the same tag — whatever bytes it supplies —
fails with the unknown-placeholder error and changes nothing. -/
theorem c10_failed_backfill_consumes_placeholder :
    ∀ (s : Writer) (tag : String) (p : PlaceHolder) (title : String) (bytes : List Nat)
      (hex : String),
      phLookup tag s.placeholders = some p →
      bytes.length ≠ p.capacity →
      phLookup tag (Writer.rewrite_placeholder tag title bytes hex s).2.placeholders = none ∧
      (∀ (title2 hex2 : String) (bytes2 : List Nat),
        Writer.rewrite_placeholder tag title2 bytes2 hex2
            (Writer.rewrite_placeholder tag title bytes hex s).2 =
          (.error (.CommonError "未找到标签为 '\x7btag\x7d' 的占位符"),
            (Writer.rewrite_placeholder tag title bytes hex s).2)) := by
  intro s tag p title bytes hex hl hne
  have hs1 : (Writer.rewrite_placeholder tag title bytes hex s).2 =
      { s with placeholders := phRemove tag s.placeholders } := by
    rw [rewrite_placeholder_mismatch hl hne]
  have hnone : phLookup tag (Writer.rewrite_placeholder tag title bytes hex s).2.placeholders =
      none := by
    rw [hs1]
    exact phLookup_phRemove tag s.placeholders
  exact ⟨hnone, fun title2 hex2 bytes2 => rewrite_placeholder_unknown hnone⟩

/-- Witness for C10 on the same concrete Writer as the C4 witness: after
the failed 3-byte backfill, a correctly sized 2-byte backfill for the same
tag fails with the unknown-placeholder error. -/
theorem c10_failed_backfill_consumes_placeholder_witness :
    phLookup "len" (Writer.rewrite_placeholder "len" "length" [0, 0, 3] "000003"
        (((Writer.new.write_bytes "cmd" [5] "5").2.write_placeholder "len" 2).2.write_bytes
          "payload" [9, 9, 9] "999").2).2.placeholders = none ∧
    (Writer.rewrite_placeholder "len" "length" [0, 3] "0003"
        (Writer.rewrite_placeholder "len" "length" [0, 0, 3] "000003"
          (((Writer.new.write_bytes "cmd" [5] "5").2.write_placeholder "len" 2).2.write_bytes
            "payload" [9, 9, 9] "999").2).2).1 =
      .error (.CommonError "未找到标签为 '\x7btag\x7d' 的占位符") := by
  have h := c10_failed_backfill_consumes_placeholder
    (((Writer.new.write_bytes "cmd" [5] "5").2.write_placeholder "len" 2).2.write_bytes
      "payload" [9, 9, 9] "999").2
    "len" { tag := "len", pos := 1, start_index := 1, end_index := 3 } "length" [0, 0, 3]
    "000003" (by decide) (by decide)
  exact ⟨h.1, by rw [h.2 "length" "0003" [0, 3]]⟩

/-! ## C5: the Rawfield hex invariant -/

/-- Counterexample to C5 as stated: `Rawfield::new_with_hex` stores the
supplied hex string verbatim, so `new_with_hex("ab", ..)` yields a field
whose `bytes` decode to `[0xAB]` but whose `hex` is the non-canonical
lower-case `"ab"`, not `"AB"`. -/
theorem c5_rawfield_hex_counterexample :
    Rawfield.newWithHex "ab" "t" "v" =
      some { bytes := [171], title := "t", hex := "ab", value := "v" } ∧
    ¬ (("ab" : String) = bytesToHexStr [171]) := by
  constructor
  · decide
  · decide

/-- C5 (amended): `Rawfield::new` always satisfies the invariant — its
`hex` is the canonical upper-case, even-length hex of its `bytes`;
`Rawfield::new_with_hex` stores the supplied string verbatim, so for it
the invariant holds exactly when the supplied string is already the
canonical encoding of its decoded bytes (it fails e.g. for lower-case
input, see the counterexample). -/
theorem c5_rawfield_hex_invariant_amended :
    (∀ (bs : List Nat) (t v : String),
      (Rawfield.new bs t v).hex = bytesToHexStr (Rawfield.new bs t v).bytes) ∧
    (∀ (hx t v : String) (rf : Rawfield), Rawfield.newWithHex hx t v = some rf →
      rf.hex = hx ∧
      (rf.hex = bytesToHexStr rf.bytes ↔ hx = bytesToHexStr rf.bytes)) := by
  constructor
  · intro bs t v
    rfl
  · intro hx t v rf h
    unfold Rawfield.newWithHex at h
    cases hb : hex_to_bytes hx with
    | ok bs =>
      rw [hb] at h
      simp at h
      rw [← h]
      exact ⟨rfl, Iff.rfl⟩
    | error e =>
      rw [hb] at h
      simp at h

/-- Witness for the amended C5 at the canonical input `"AB"`: the stored
hex is the supplied string and the invariant biconditional holds. -/
theorem c5_rawfield_hex_invariant_amended_witness :
    ({ bytes := [171], title := "t", hex := "AB", value := "v" } : Rawfield).hex = "AB" ∧
    (({ bytes := [171], title := "t", hex := "AB", value := "v" } : Rawfield).hex =
        bytesToHexStr ({ bytes := [171], title := "t", hex := "AB", value := "v" } : Rawfield).bytes ↔
      ("AB" : String) = bytesToHexStr [171]) :=
  c5_rawfield_hex_invariant_amended.2 "AB" "t" "v"
    { bytes := [171], title := "t", hex := "AB", value := "v" } (by decide)

/-! ## C7: encode length adjustment -/

theorem adjust_len_length {expected : Nat} (bytes0 : List Nat) (h : 0 < expected) :
    (adjust_len expected bytes0).length = expected := by
  unfold adjust_len
  by_cases h1 : bytes0.length = expected
  · simp [h1]
  · rw [if_pos ⟨h, h1⟩]
    by_cases h2 : bytes0.length > expected
    · rw [if_pos h2]
      simp
      omega
    · rw [if_neg h2]
      simp
      omega

/-- C7: `AutoEncodingParam::to_bytes` length adjustment.  (i) With a
declared byte length `L > 0`, every successful call returns exactly `L`
bytes.  (ii) For a non-empty input whose field-type encoding yields
`raw`: longer-than-`L` results keep only the low-order `L` bytes, shorter
ones are zero-padded on the high-order side, and the swap flag reverses
the bytes after this adjustment.  (iii) With empty input and both
defaults empty, a required field fails with the required-parameter
error, and an optional one produces zero bytes before the adjustment
(hence `L` zero bytes after it when `L > 0`). -/
theorem c7_to_bytes_length_adjustment :
    ∀ (p : AutoEncodingParam) (input : String),
      (∀ bs, 0 < p.byte_length → p.to_bytes input = .ok bs → bs.length = p.byte_length) ∧
      (∀ raw, ¬ input = "" → p.ftEncode input = .ok raw →
        p.to_bytes input = .ok (condReverse p.swap
          (if raw.length > p.byte_length ∧ 0 < p.byte_length then
            raw.drop (raw.length - p.byte_length)
          else if raw.length < p.byte_length then
            List.replicate (p.byte_length - raw.length) 0 ++ raw
          else raw))) ∧
      (input = "" → p.default_hex = "" → p.default_value = "" →
        (p.required = true → p.to_bytes input =
          .error (.CommonError ("Field '" ++ p.code ++ "' is required but no value provided"))) ∧
        (p.required = false → p.to_bytes input =
          .ok (condReverse p.swap
            (if 0 < p.byte_length then List.replicate p.byte_length 0 else [])))) := by
  intro p input
  refine ⟨?_, ?_, ?_⟩
  · intro bs hL hok
    unfold AutoEncodingParam.to_bytes at hok
    cases hres : p.to_bytes_resolve input with
    | error e => rw [hres] at hok; simp at hok
    | ok bytes0 =>
      rw [hres] at hok
      simp only at hok
      by_cases hsw : p.swap
      · rw [if_pos hsw] at hok
        simp at hok
        rw [← hok]
        simp [adjust_len_length bytes0 hL]
      · rw [if_neg hsw] at hok
        simp at hok
        rw [← hok]
        exact adjust_len_length bytes0 hL
  · intro raw hne henc
    have hres : p.to_bytes_resolve input = .ok raw := by
      unfold AutoEncodingParam.to_bytes_resolve
      rw [if_neg hne]
      exact henc
    unfold AutoEncodingParam.to_bytes
    rw [hres]
    simp only
    have hadj : adjust_len p.byte_length raw =
        (if raw.length > p.byte_length ∧ 0 < p.byte_length then
          raw.drop (raw.length - p.byte_length)
        else if raw.length < p.byte_length then
          List.replicate (p.byte_length - raw.length) 0 ++ raw
        else raw) := by
      unfold adjust_len
      by_cases h1 : 0 < p.byte_length
      · by_cases h2 : raw.length = p.byte_length
        · rw [if_neg (by omega), if_neg (by omega), if_neg (by omega)]
        · rw [if_pos ⟨h1, h2⟩]
          by_cases h3 : raw.length > p.byte_length
          · rw [if_pos h3, if_pos ⟨h3, h1⟩]
          · rw [if_neg h3, if_neg (by omega), if_pos (by omega)]
      · rw [if_neg (by omega), if_neg (by omega), if_neg (by omega)]
    rw [hadj]
    unfold condReverse
    by_cases hsw : p.swap
    · rw [if_pos hsw, if_pos hsw]
    · rw [if_neg hsw, if_neg hsw]
  · intro hin hdh hdv
    have hres : p.to_bytes_resolve input =
        (if p.required then
          .error (.CommonError ("Field '" ++ p.code ++ "' is required but no value provided"))
        else .ok []) := by
      unfold AutoEncodingParam.to_bytes_resolve
      rw [if_pos hin, if_neg (by simp [hdh]), if_neg (by simp [hdv])]
    constructor
    · intro hreq
      unfold AutoEncodingParam.to_bytes
      rw [hres, if_pos hreq]
    · intro hreq
      unfold AutoEncodingParam.to_bytes
      rw [hres, if_neg (by simp [hreq])]
      simp only
      have hadj : adjust_len p.byte_length [] =
          (if 0 < p.byte_length then List.replicate p.byte_length 0 else []) := by
        unfold adjust_len
        by_cases h1 : 0 < p.byte_length
        · rw [if_pos (by simp; omega), if_neg (by simp), if_pos h1]
          simp
        · rw [if_neg (by omega), if_neg h1]
      rw [hadj]
      unfold condReverse
      by_cases hsw : p.swap
      · rw [if_pos hsw, if_pos hsw]
      · rw [if_neg hsw, if_neg hsw]

/-- Witness for C7 on a concrete definition of declared length 2
(`ftEncode` yielding 4 bytes): `to_bytes` keeps only the low-order two
bytes `[0xBD, 0x23]`; its length is the declared length; and the
empty-input/required case fails with the required-parameter error. -/
theorem c7_to_bytes_length_adjustment_witness :
    AutoEncodingParam.to_bytes
        { code := "c", title := "t", byte_length := 2,
          ftEncode := fun _ => .ok [0x77, 0xFF, 0xBD, 0x23],
          default_value := "", default_hex := "", swap := false, required := true } "1" =
      .ok [0xBD, 0x23] ∧
    ([0xBD, 0x23] : List Nat).length = 2 ∧
    AutoEncodingParam.to_bytes
        { code := "c", title := "t", byte_length := 2,
          ftEncode := fun _ => .ok [0x77, 0xFF, 0xBD, 0x23],
          default_value := "", default_hex := "", swap := false, required := true } "" =
      .error (.CommonError "Field 'c' is required but no value provided") := by
  have h := c7_to_bytes_length_adjustment
    { code := "c", title := "t", byte_length := 2,
      ftEncode := fun _ => .ok [0x77, 0xFF, 0xBD, 0x23],
      default_value := "", default_hex := "", swap := false, required := true }
  refine ⟨?_, ?_, ?_⟩
  · have h1 := (h "1").2.1 [0x77, 0xFF, 0xBD, 0x23] (by decide) rfl
    rw [h1]
    decide
  · have h1 := (h "1").1 [0xBD, 0x23] (by decide)
    apply h1
    have h2 := (h "1").2.1 [0x77, 0xFF, 0xBD, 0x23] (by decide) rfl
    rw [h2]
    decide
  · exact ((h "").2.2 rfl rfl rfl).1 rfl

/-! ## C8: hex round trip -/

theorem hexDigitU_not_ws : ∀ n, n < 16 → isWsChar (hexDigitU n) = false := by decide

theorem hexDigitU_val : ∀ n, n < 16 → hexCharVal (hexDigitU n) = some n := by decide

theorem hexDigitU_ne_xX : ∀ n, n < 16 → hexDigitU n ≠ 'x' ∧ hexDigitU n ≠ 'X' := by decide

theorem hexDigitU_upper :
    ∀ n, n < 16 →
      ('0' ≤ hexDigitU n ∧ hexDigitU n ≤ '9') ∨ ('A' ≤ hexDigitU n ∧ hexDigitU n ≤ 'F') := by
  decide

theorem mem_bytesToHexChars {c : Char} {bs : List Nat} (h : c ∈ bytesToHexChars bs) :
    ∃ n, n < 16 ∧ c = hexDigitU n := by
  induction bs with
  | nil => cases h
  | cons b rest ih =>
    simp only [bytesToHexChars, byteToHexChars, List.cons_append, List.nil_append,
      List.mem_cons] at h
    rcases h with h | h | h
    · exact ⟨b / 16 % 16, Nat.mod_lt _ (by omega), h⟩
    · exact ⟨b % 16, Nat.mod_lt _ (by omega), h⟩
    · exact ih h

theorem dropWhile_ws_eq_self {l : List Char} (h : ∀ c ∈ l, isWsChar c = false) :
    l.dropWhile isWsChar = l := by
  cases l with
  | nil => rfl
  | cons c r =>
    rw [List.dropWhile_cons]
    simp [h c (List.mem_cons_self c r)]

theorem trimChars_eq_self {l : List Char} (h : ∀ c ∈ l, isWsChar c = false) :
    trimChars l = l := by
  unfold trimChars
  rw [dropWhile_ws_eq_self h,
    dropWhile_ws_eq_self (fun c hc => h c (List.mem_reverse.mp hc)),
    List.reverse_reverse]

theorem strip0x_bytesToHexChars (bs : List Nat) :
    strip0x (bytesToHexChars bs) = bytesToHexChars bs := by
  cases bs with
  | nil => rfl
  | cons b rest =>
    show strip0x (hexDigitU (b / 16 % 16) :: hexDigitU (b % 16) :: bytesToHexChars rest) = _
    have h2 := hexDigitU_ne_xX (b % 16) (Nat.mod_lt _ (by omega))
    unfold strip0x
    show (if hexDigitU (b / 16 % 16) = '0' ∧ hexDigitU (b % 16) = 'x' then bytesToHexChars rest
      else if hexDigitU (b / 16 % 16) = '0' ∧ hexDigitU (b % 16) = 'X' then bytesToHexChars rest
      else hexDigitU (b / 16 % 16) :: hexDigitU (b % 16) :: bytesToHexChars rest) =
      bytesToHexChars (b :: rest)
    rw [if_neg (fun hc => h2.1 hc.2), if_neg (fun hc => h2.2 hc.2)]
    rfl

theorem bytesToHexChars_length (bs : List Nat) :
    (bytesToHexChars bs).length = 2 * bs.length := by
  induction bs with
  | nil => rfl
  | cons b rest ih =>
    simp [bytesToHexChars, byteToHexChars, ih]
    omega

theorem decodeHexPairs_bytesToHexChars (bs : List Nat) (h : ∀ b ∈ bs, b < 256) :
    decodeHexPairs (bytesToHexChars bs) = .ok bs := by
  induction bs with
  | nil => rfl
  | cons b rest ih =>
    have hb := h b (List.mem_cons_self b rest)
    have h16a : b / 16 % 16 < 16 := Nat.mod_lt _ (by omega)
    have h16b : b % 16 < 16 := Nat.mod_lt _ (by omega)
    show decodeHexPairs (hexDigitU (b / 16 % 16) :: hexDigitU (b % 16) ::
      bytesToHexChars rest) = _
    unfold decodeHexPairs
    rw [hexDigitU_val _ h16a, hexDigitU_val _ h16b,
      ih (fun x hx => h x (List.mem_cons_of_mem b hx))]
    show Except.ok ((b / 16 % 16 * 16 + b % 16) :: rest) = Except.ok (b :: rest)
    have hv : b / 16 % 16 * 16 + b % 16 = b := by omega
    rw [hv]

/-- C8: hex round trip.  For every byte vector, `bytes_to_hex` succeeds
and yields an upper-case hex string of even length (two characters per
byte, each a decimal digit or `A`–`F`), and decoding it back with
`hex_to_bytes` recovers the bytes exactly. -/
theorem c8_hex_round_trip :
    ∀ (bs : List Nat), (∀ b ∈ bs, b < 256) →
      bytes_to_hex bs = .ok (bytesToHexStr bs) ∧
      (bytesToHexStr bs).data.length = 2 * bs.length ∧
      (∀ c ∈ (bytesToHexStr bs).data,
        ('0' ≤ c ∧ c ≤ '9') ∨ ('A' ≤ c ∧ c ≤ 'F')) ∧
      hex_to_bytes (bytesToHexStr bs) = .ok bs := by
  intro bs h
  have hdata : (bytesToHexStr bs).data = bytesToHexChars bs := rfl
  have hnws : ∀ c ∈ bytesToHexChars bs, isWsChar c = false := by
    intro c hc
    obtain ⟨n, hn, rfl⟩ := mem_bytesToHexChars hc
    exact hexDigitU_not_ws n hn
  refine ⟨rfl, by rw [hdata]; exact bytesToHexChars_length bs, ?_, ?_⟩
  · intro c hc
    rw [hdata] at hc
    obtain ⟨n, hn, rfl⟩ := mem_bytesToHexChars hc
    exact hexDigitU_upper n hn
  · show hexToBytesL (bytesToHexStr bs).data = .ok bs
    rw [hdata]
    unfold hexToBytesL cleanAndPadHex
    rw [trimChars_eq_self hnws, strip0x_bytesToHexChars bs]
    rw [if_pos (by rw [bytesToHexChars_length]; omega)]
    exact decodeHexPairs_bytesToHexChars bs h

/-- Witness for C8 on the bytes `[0, 171, 16, 255]`: the hex is
`"00AB10FF"` and decodes back to the original bytes. -/
theorem c8_hex_round_trip_witness :
    bytes_to_hex [0, 171, 16, 255] = .ok (bytesToHexStr [0, 171, 16, 255]) ∧
    (bytesToHexStr [0, 171, 16, 255]).data.length = 2 * ([0, 171, 16, 255] : List Nat).length ∧
    (∀ c ∈ (bytesToHexStr [0, 171, 16, 255]).data,
      ('0' ≤ c ∧ c ≤ '9') ∨ ('A' ≤ c ∧ c ≤ 'F')) ∧
    hex_to_bytes (bytesToHexStr [0, 171, 16, 255]) = .ok [0, 171, 16, 255] :=
  c8_hex_round_trip [0, 171, 16, 255] (by decide)

/-! ## C9: enum decoder fallback -/

/-- C9: for a byte slice of exactly `T`'s fixed width, the enum decoder
always succeeds: `try_from_bytes` yields a key, and the field value is
the label found for that key in `enum_values`, or — when the key matches
no entry — the string form of the decoded value; an unknown enum value is
never an error. -/
theorem c9_enum_decoder_fallback :
    ∀ (t : NumTy) (d : FieldEnumDecoder) (bytes : List Nat),
      bytes.length = t.width →
      ∃ key : Int, t.try_from_bytes bytes d.swap = .ok key ∧
        ((d.enum_values.find? (fun q => q.1 == key)) = none →
          FieldEnumDecoder.translate t d bytes = .ok (Rawfield.new bytes d.title (toString key))) ∧
        (∀ pr, (d.enum_values.find? (fun q => q.1 == key)) = some pr →
          FieldEnumDecoder.translate t d bytes = .ok (Rawfield.new bytes d.title pr.2)) := by
  intro t d bytes h
  have hk : ∃ key, t.try_from_bytes bytes d.swap = .ok key := by
    unfold NumTy.try_from_bytes
    rw [if_neg (fun hn => hn h)]
    by_cases hs : t.signed = true
    · rw [if_pos hs]
      exact ⟨_, rfl⟩
    · rw [if_neg hs]
      exact ⟨_, rfl⟩
  obtain ⟨key, hk⟩ := hk
  refine ⟨key, hk, ?_, ?_⟩
  · intro hfind
    unfold FieldEnumDecoder.translate
    rw [hk]
    simp [hfind]
  · intro pr hfind
    unfold FieldEnumDecoder.translate
    rw [hk]
    simp [hfind]

/-- Witness for C9: the spec scenario — table `[(1, "Open"),
(2, "Closed")]`, single byte `3` as `u8`: translation succeeds with the
fallback value `"3"`. -/
theorem c9_enum_decoder_fallback_witness :
    FieldEnumDecoder.translate .u8 ⟨"st", false, [(1, "Open"), (2, "Closed")]⟩ [3] =
      .ok (Rawfield.new [3] "st" "3") := by
  obtain ⟨key, hk, h1, h2⟩ :=
    c9_enum_decoder_fallback .u8 ⟨"st", false, [(1, "Open"), (2, "Closed")]⟩ [3] (by decide)
  have hdec : NumTy.try_from_bytes .u8 [3]
      (FieldEnumDecoder.mk "st" false [((1 : Int), "Open"), (2, "Closed")]).swap =
      .ok (3 : Int) := by decide
  rw [hdec] at hk
  have hkey : (3 : Int) = key := by
    injection hk
  rw [← hkey] at h1
  exact h1 (by decide)

end Proto
